import Mathlib

/-!
Verification of the `deeper-micropay-channel` pallet
(`src/pallets/deeper-micropay-channel/src/lib.rs`).

The pallet is generic over a Substrate runtime `T`.  We instantiate the
opaque host types concretely, in the way the pallet itself uses them:
an `AccountId` is its canonical SCALE byte encoding (the code only ever
uses `sender.encode()` / `receiver.encode()`, so we take the account id
to *be* its byte string); `Balance` is `u128` as in the pallet's own
test (`test_blake2_hash`), whose SCALE encoding is 16 little-endian
bytes; `Moment` is a natural number.

External collaborators (the secp256k1 library's parsers and verifier,
the `blake2_256` host hash, and the `Currency` transfer subsystem) are
out of scope per the spec; they enter as explicit function parameters
(`variable`s of the section) or, for `Currency::transfer`, as a
definition modelled from the spec's interface contract.
-/

namespace Micropay

/-- A byte string; each entry is intended to be `< 256`. -/
abbrev Bytes := List Nat

/-- Account identifier, identified with its canonical (SCALE) byte
encoding, which for the fixed-width account types the pallet expects is
just the raw bytes. -/
abbrev AccountId := Bytes

/-- `BalanceOf<T>`, instantiated at `u128` as in the pallet's test. -/
abbrev Balance := Nat

/-- `Moment<T>`, the timestamp type. -/
abbrev Moment := Nat

/-- `Chan<AccountId, Timestamp>`: the stored channel record
(`struct Chan { sender, receiver, expiration }`). -/
structure Chan where
  sender : AccountId
  receiver : AccountId
  expiration : Moment
deriving DecidableEq

/-- The pallet's events (`decl_event!`): `ChannelOpened`,
`ChannelClosed`, `ClaimPayment`. -/
inductive Event where
  | ChannelOpened (sender receiver : AccountId) (time : Moment)
  | ChannelClosed (sender receiver : AccountId) (time : Moment)
  | ClaimPayment (sender receiver : AccountId) (amount : Balance)
deriving DecidableEq

/-- The dispatch errors raised by the pallet (the `ensure!` message
strings of the source, plus the error propagated from
`Currency::transfer`):
`channelAlreadyOpened` = "Channel already opened",
`selfChannel` = "Channel should connect two different accounts",
`channelNotExists` = "Channel not exists",
`nonceAlreadyConsumed` = "Nonce already consumed",
`invalidPubkey` = "Invalid Pubkey",
`invalidSignature` = "Invalid Signature",
`failToVerify` = "Fail to verify",
`insufficientFunds` = the error returned by a failing transfer. -/
inductive DispatchError where
  | channelAlreadyOpened
  | selfChannel
  | channelNotExists
  | nonceAlreadyConsumed
  | invalidPubkey
  | invalidSignature
  | failToVerify
  | insufficientFunds
deriving DecidableEq

/-- Result of the pure signature-verification routine.  `panic` records
an unrecoverable abort of the process (a Rust panic), as opposed to a
recoverable `DispatchError`. -/
inductive VResult where
  | ok
  | err (e : DispatchError)
  | panic
deriving DecidableEq

/-- The pallet's storage plus the external collaborators' observable
state: `Channel` map, `Nonce` double map (modelled as an association
list keyed by `((sender, receiver), nonce)` holding the stored `bool`),
the currency collaborator's balances, and the event sink. -/
structure State where
  channel : List ((AccountId × AccountId) × Chan)
  nonce : List (((AccountId × AccountId) × Nat) × Bool)
  balances : List (AccountId × Balance)
  events : List Event
deriving DecidableEq

/-- Result of a dispatchable call: success with the new state, a
recoverable error together with the (rolled-back) state observable
afterwards, or a process abort. -/
inductive OpResult where
  | ok (s : State)
  | err (e : DispatchError) (s : State)
  | panic
deriving DecidableEq

/-! ### Keyed-storage primitives

The host's persistent keyed storage, modelled as association lists:
point containment / insert / remove, and the prefix-scoped bulk remove
used for the `Nonce` double map. -/

/-- `contains_key` of a storage map. -/
def mapContains {κ ν : Type} [DecidableEq κ] (l : List (κ × ν)) (k : κ) : Bool :=
  l.any (fun e => e.1 = k)

/-- `insert` of a storage map: the new binding shadows any former one. -/
def mapInsert {κ ν : Type} [DecidableEq κ] (l : List (κ × ν)) (k : κ) (v : ν) :
    List (κ × ν) :=
  (k, v) :: l.filter (fun e => decide (e.1 ≠ k))

/-- `remove` of a storage map. -/
def mapRemove {κ ν : Type} [DecidableEq κ] (l : List (κ × ν)) (k : κ) :
    List (κ × ν) :=
  l.filter (fun e => decide (e.1 ≠ k))

/-- `get` of a storage map. -/
def mapGet {κ ν : Type} [DecidableEq κ] (l : List (κ × ν)) (k : κ) : Option ν :=
  (l.find? (fun e => e.1 = k)).map (fun e => e.2)

/-- `Nonce::remove_prefix((sender, receiver))`: the prefix-scoped bulk
removal of every nonce record of one channel, in a single operation. -/
def removeChannelNonces (l : List (((AccountId × AccountId) × Nat) × Bool))
    (pair : AccountId × AccountId) : List (((AccountId × AccountId) × Nat) × Bool) :=
  l.filter (fun e => decide (e.1.1 ≠ pair))

/-! ### Canonical encodings

`AccountId` is identified with its SCALE encoding (fixed-width account
ids encode to their raw bytes).  `u32::to_be_bytes` and the SCALE
(little-endian fixed-width) encoding of a `u128` amount are spelled out
as arithmetic on `Nat`. -/

/-- `sender.encode()` / `receiver.encode()`: the canonical byte
encoding of an account identifier (the identity on our byte-string
account ids). -/
def encodeAccount (a : AccountId) : Bytes := a

/-- `nonce.to_be_bytes()` for a `u32`: four big-endian bytes. -/
def u32BeBytes (n : Nat) : Bytes :=
  [n % 2 ^ 32 / 2 ^ 24, n % 2 ^ 24 / 2 ^ 16, n % 2 ^ 16 / 2 ^ 8, n % 2 ^ 8]

/-- Big-endian value of a byte string (to state that `u32BeBytes`
really is the big-endian encoding). -/
def beVal (bs : Bytes) : Nat :=
  bs.foldl (fun acc b => acc * 256 + b) 0

/-- Little-endian fixed-width byte encoding, `width` bytes. -/
def leBytes : Nat → Nat → Bytes
  | 0, _ => []
  | width + 1, v => v % 256 :: leBytes width (v / 256)

/-- Little-endian value of a byte string. -/
def leVal (bs : Bytes) : Nat :=
  bs.foldr (fun b acc => acc * 256 + b) 0

/-- `amount.encode()`: the ledger's canonical SCALE encoding of the
`u128` balance — 16 little-endian bytes. -/
def encodeBalance (amount : Balance) : Bytes := leBytes 16 amount

/-- A 256-bit digest: exactly 32 bytes (`[u8; 32]`). -/
def Hash256 : Type := { l : Bytes // l.length = 32 }

instance : DecidableEq Hash256 := fun a b =>
  decidable_of_iff (a.1 = b.1) Subtype.ext_iff.symm

/-! ### External collaborators

The fixed 256-bit hash (`sp_io::hashing::blake2_256`) and the
secp256k1 library's parsers and verifier are external libraries, out of
scope per the spec; they are parameters of everything below.  A parsed
public key is represented by the 33 bytes it was parsed from, and a
`secp256k1::Message` by the digest it was parsed from. -/

variable (blake2_256 : Bytes → Hash256)
variable (parseCompressedOk : Bytes → Bool)
variable (parseSigOk : Bytes → Bool)
variable (secpVerify : Hash256 → Bytes → Bytes → Bool)

/-- `construct_byte_array_and_hash(address, nonce, amount)`: build
`|address.encode()|nonce.to_be_bytes()|amount.encode()|` by successive
`extend_from_slice` on a fresh `Vec`, then `blake2_256` it. -/
def construct_byte_array_and_hash (address : AccountId) (nonce : Nat)
    (amount : Balance) : Hash256 :=
  let data : Bytes := []
  let data := data ++ encodeAccount address
  let data := data ++ u32BeBytes nonce
  let data := data ++ encodeBalance amount
  blake2_256 data

/-- `verify_signature(sender, receiver, nonce, amount, signature)`.
The source copies `sender.encode()` into a fixed `[0u8; 33]` buffer
with `copy_from_slice`, which panics when the lengths differ — hence
the `.panic` branch.  Then: `PublicKey::parse_compressed` must succeed
(else "Invalid Pubkey"), `Signature::parse_slice` must succeed (else
"Invalid Signature"), and `secp256k1::verify` of the commitment digest
must hold (else "Fail to verify"). -/
def verify_signature (sender receiver : AccountId) (nonce : Nat)
    (amount : Balance) (signature : Bytes) : VResult :=
  if (encodeAccount sender).length ≠ 33 then .panic
  else
    let pk := encodeAccount sender
    if parseCompressedOk pk = false then .err .invalidPubkey
    else if parseSigOk signature = false then .err .invalidSignature
    else
      let hash := construct_byte_array_and_hash blake2_256 receiver nonce amount
      if secpVerify hash signature pk = false then .err .failToVerify
      else .ok

/-- Modelled from the spec: `Currency::transfer(from, to, amount,
AllowDeath)` — the external currency collaborator (§6).  It moves
`amount` atomically, fails with an insufficient-funds condition when
the source balance is too low, and succeeds even when it drains the
source balance to zero (`AllowDeath`). -/
def transfer (bal : List (AccountId × Balance)) (src dst : AccountId)
    (amount : Balance) : Option (List (AccountId × Balance)) :=
  let srcBal := (mapGet bal src).getD 0
  if srcBal < amount then none
  else
    let bal1 := mapInsert bal src (srcBal - amount)
    let dstBal := (mapGet bal1 dst).getD 0
    some (mapInsert bal1 dst (dstBal + amount))

/-- `open_channel(origin, receiver)`: the signed caller becomes the
`sender`; fails when the `(sender, receiver)` channel already exists,
then when `sender == receiver`; otherwise stores
`Chan { sender, receiver, expiration: now }` under `(sender, receiver)`
and deposits `ChannelOpened(sender, receiver, time)`. -/
def open_channel (s : State) (origin receiver : AccountId) (time : Moment) :
    OpResult :=
  let sender := origin
  if mapContains s.channel (sender, receiver) then .err .channelAlreadyOpened s
  else if sender = receiver then .err .selfChannel s
  else
    let chan : Chan := { sender := sender, receiver := receiver, expiration := time }
    .ok { s with
      channel := mapInsert s.channel (sender, receiver) chan,
      events := s.events ++ [.ChannelOpened sender receiver time] }

/-- `close_channel(origin, sender)`: the signed caller becomes the
`receiver`; fails when the `(sender, receiver)` channel does not exist;
otherwise removes every nonce record of the channel
(`Nonce::remove_prefix`), removes the channel record, and deposits
`ChannelClosed(sender, receiver, time)`. -/
def close_channel (s : State) (origin sender : AccountId) (time : Moment) :
    OpResult :=
  let receiver := origin
  if mapContains s.channel (sender, receiver) = false then .err .channelNotExists s
  else
    .ok { s with
      nonce := removeChannelNonces s.nonce (sender, receiver),
      channel := mapRemove s.channel (sender, receiver),
      events := s.events ++ [.ChannelClosed sender receiver time] }

/-- `claim_payment(origin, sender, nonce, amount, signature)`: the
signed caller becomes the `receiver`; the channel must exist, the nonce
must not be consumed, the signature must verify; then
`Currency::transfer(sender, receiver, amount, AllowDeath)` runs, the
nonce is marked used, and `ClaimPayment(sender, receiver, amount)` is
deposited. -/
def claim_payment (s : State) (origin sender : AccountId) (nonce : Nat)
    (amount : Balance) (signature : Bytes) : OpResult :=
  let receiver := origin
  if mapContains s.channel (sender, receiver) = false then .err .channelNotExists s
  else if mapContains s.nonce ((sender, receiver), nonce) then
    .err .nonceAlreadyConsumed s
  else
    match verify_signature blake2_256 parseCompressedOk parseSigOk secpVerify
        sender receiver nonce amount signature with
    | .panic => .panic
    | .err e => .err e s
    | .ok =>
      match transfer s.balances sender receiver amount with
      | none => .err .insufficientFunds s
      | some bal2 =>
        .ok { s with
          balances := bal2,
          nonce := mapInsert s.nonce ((sender, receiver), nonce) true,
          events := s.events ++ [.ClaimPayment sender receiver amount] }

/-! ### Traces -/

/-- One dispatchable call with its arguments; the `time` argument is
the value the external timestamp oracle returns during that call. -/
inductive Op where
  | openCh (origin receiver : AccountId) (time : Moment)
  | closeCh (origin sender : AccountId) (time : Moment)
  | claim (origin sender : AccountId) (nonce : Nat) (amount : Balance)
      (signature : Bytes)
deriving DecidableEq

/-- Dispatch one call. -/
def applyOp (s : State) : Op → OpResult
  | .openCh origin receiver time => open_channel s origin receiver time
  | .closeCh origin sender time => close_channel s origin sender time
  | .claim origin sender nonce amount signature =>
      claim_payment blake2_256 parseCompressedOk parseSigOk secpVerify
        s origin sender nonce amount signature

/-- The state after one call under the host's all-or-nothing execution:
a failed (or aborted) call leaves the state unchanged. -/
def step (s : State) (op : Op) : State :=
  match applyOp blake2_256 parseCompressedOk parseSigOk secpVerify s op with
  | .ok s' => s'
  | .err _ _ => s
  | .panic => s

/-- Run a list of calls in order. -/
def run (s : State) (ops : List Op) : State :=
  ops.foldl (step blake2_256 parseCompressedOk parseSigOk secpVerify) s

/-- The genesis state: empty `Channel` and `Nonce` storage, no events,
arbitrary external balances. -/
def initState (bal : List (AccountId × Balance)) : State :=
  { channel := [], nonce := [], balances := bal, events := [] }

/-- A state reachable from genesis by some sequence of calls. -/
def Reachable (s : State) : Prop :=
  ∃ bal ops,
    run blake2_256 parseCompressedOk parseSigOk secpVerify (initState bal) ops = s

/-- The channel `pair` is still stored after every single step of `ops`
run from `s` (so in particular no `close_channel` of that pair
succeeds along the trace). -/
def channelStaysOpen (pair : AccountId × AccountId) : State → List Op → Bool
  | _, [] => true
  | s, op :: ops =>
      mapContains
        (step blake2_256 parseCompressedOk parseSigOk secpVerify s op).channel pair
      && channelStaysOpen pair
        (step blake2_256 parseCompressedOk parseSigOk secpVerify s op) ops

/-- Integrity of the `Channel` storage: every stored record agrees
with its key and never links an account to itself. -/
def channelKeyInv (s : State) : Prop :=
  ∀ pair chan, (pair, chan) ∈ s.channel →
    chan.sender = pair.1 ∧ chan.receiver = pair.2 ∧ pair.1 ≠ pair.2

/-! ### Concrete stand-ins and states, for evaluating the model on
closed inputs -/

/-- Concrete stand-in for the external hash: constant 32-byte digest. -/
def hashC : Bytes → Hash256 := fun _ => ⟨List.replicate 32 0, by simp⟩

/-- Concrete stand-in for `PublicKey::parse_compressed` success. -/
def parseOkC : Bytes → Bool := fun _ => true

/-- Concrete stand-in for `Signature::parse_slice` success. -/
def sigOkC : Bytes → Bool := fun _ => true

/-- Concrete stand-in for `secp256k1::verify`. -/
def verifyOkC : Hash256 → Bytes → Bytes → Bool := fun _ _ _ => true

/-- A 33-byte account id (the width `verify_signature` expects). -/
def accP : AccountId := List.replicate 33 1

/-- Another 33-byte account id. -/
def accQ : AccountId := List.replicate 33 2

/-- A 32-byte account id — the width of a standard `AccountId32`, one
byte short of the 33 bytes `verify_signature` copies into. -/
def acc32 : AccountId := List.replicate 32 0

/-- A state with the single channel `(accP, accQ)` open, no consumed
nonces, and `accP` funded with 100. -/
def stOpen : State :=
  { channel := [((accP, accQ), { sender := accP, receiver := accQ, expiration := 5 })],
    nonce := [], balances := [(accP, 100)], events := [] }

/-- `stOpen` after the claim `(nonce 1, amount 50)` settles. -/
def stClaimed : State :=
  { channel := [((accP, accQ), { sender := accP, receiver := accQ, expiration := 5 })],
    nonce := [(((accP, accQ), 1), true)],
    balances := [(accQ, 50), (accP, 50)],
    events := [.ClaimPayment accP accQ 50] }

/-- A state whose single open channel is keyed by the 32-byte id
`acc32` as sender, reaching the signature-verification path with an
account id whose encoding is not 33 bytes long. -/
def stOpen32 : State :=
  { channel := [((acc32, accQ), { sender := acc32, receiver := accQ, expiration := 5 })],
    nonce := [], balances := [(acc32, 100)], events := [] }

/-- Concrete stand-in for a *failing* `PublicKey::parse_compressed`. -/
def parseFailC : Bytes → Bool := fun _ => false

/-- The state produced by opening the channel `(accP, accQ)` from an
empty genesis. -/
def stFresh : State :=
  { channel := [((accP, accQ), { sender := accP, receiver := accQ, expiration := 5 })],
    nonce := [], balances := [], events := [.ChannelOpened accP accQ 5] }

/-! ### Lemmas about the keyed-storage primitives -/

theorem mapContains_iff {κ ν : Type} [DecidableEq κ] (l : List (κ × ν)) (k : κ) :
    mapContains l k = true ↔ ∃ v, (k, v) ∈ l := by
  induction l with
  | nil => simp [mapContains]
  | cons e t ih =>
    simp only [mapContains, List.any_cons, Bool.or_eq_true, decide_eq_true_eq] at *
    constructor
    · rintro (h | h)
      · exact ⟨e.2, by simp [← h]⟩
      · obtain ⟨v, hv⟩ := ih.mp h
        exact ⟨v, by simp [hv]⟩
    · rintro ⟨v, hv⟩
      rcases List.mem_cons.mp hv with h | h
      · left; rw [← h]
      · right; exact ih.mpr ⟨v, h⟩

theorem mem_mapInsert {κ ν : Type} [DecidableEq κ] (l : List (κ × ν)) (k : κ)
    (v : ν) (e : κ × ν) :
    e ∈ mapInsert l k v ↔ e = (k, v) ∨ (e ∈ l ∧ e.1 ≠ k) := by
  simp [mapInsert, List.mem_filter]

theorem mapContains_mapInsert {κ ν : Type} [DecidableEq κ] (l : List (κ × ν))
    (k : κ) (v : ν) (k' : κ) :
    mapContains (mapInsert l k v) k' = true ↔ k' = k ∨ mapContains l k' = true := by
  simp only [mapContains_iff, mem_mapInsert]
  constructor
  · rintro ⟨w, hw | ⟨hw, hne⟩⟩
    · left; exact congrArg Prod.fst hw
    · right; exact ⟨w, hw⟩
  · rintro (rfl | ⟨w, hw⟩)
    · exact ⟨v, Or.inl rfl⟩
    · by_cases h : k' = k
      · exact ⟨v, Or.inl (by rw [h])⟩
      · exact ⟨w, Or.inr ⟨hw, h⟩⟩

theorem mapContains_mapRemove {κ ν : Type} [DecidableEq κ] (l : List (κ × ν))
    (k k' : κ) :
    mapContains (mapRemove l k) k' = true ↔ k' ≠ k ∧ mapContains l k' = true := by
  simp only [mapContains_iff, mapRemove, List.mem_filter, decide_eq_true_eq]
  constructor
  · rintro ⟨v, hv, hne⟩
    exact ⟨hne, v, hv⟩
  · rintro ⟨hne, v, hv⟩
    exact ⟨v, hv, hne⟩

theorem mapContains_removeChannelNonces
    (l : List (((AccountId × AccountId) × Nat) × Bool))
    (pair pair' : AccountId × AccountId) (n : Nat) :
    mapContains (removeChannelNonces l pair) (pair', n) = true ↔
      pair' ≠ pair ∧ mapContains l (pair', n) = true := by
  simp only [mapContains_iff, removeChannelNonces, List.mem_filter, decide_eq_true_eq]
  constructor
  · rintro ⟨v, hv, hne⟩
    exact ⟨hne, v, hv⟩
  · rintro ⟨hne, v, hv⟩
    exact ⟨v, hv, hne⟩

theorem mapGet_mapInsert_self {κ ν : Type} [DecidableEq κ] (l : List (κ × ν))
    (k : κ) (v : ν) : mapGet (mapInsert l k v) k = some v := by
  simp [mapGet, mapInsert, List.find?]

theorem find?_filter_ne {κ ν : Type} [DecidableEq κ] (l : List (κ × ν))
    (k k' : κ) (h : k' ≠ k) :
    List.find? (fun e => decide (e.1 = k'))
        (List.filter (fun e => decide (e.1 ≠ k)) l)
      = List.find? (fun e => decide (e.1 = k')) l := by
  induction l with
  | nil => rfl
  | cons e t ih =>
    rw [List.filter_cons]
    by_cases he : e.1 = k
    · have h2 : e.1 ≠ k' := by
        intro hx
        exact h (hx ▸ he)
      rw [if_neg (by simp [he]), List.find?_cons_of_neg _ (by simp [h2])]
      exact ih
    · rw [if_pos (by simp [he])]
      by_cases h2 : e.1 = k'
      · rw [List.find?_cons_of_pos _ (by simp [h2]),
          List.find?_cons_of_pos _ (by simp [h2])]
      · rw [List.find?_cons_of_neg _ (by simp [h2]),
          List.find?_cons_of_neg _ (by simp [h2])]
        exact ih

theorem mapGet_mapInsert_ne {κ ν : Type} [DecidableEq κ] (l : List (κ × ν))
    (k : κ) (v : ν) (k' : κ) (h : k' ≠ k) :
    mapGet (mapInsert l k v) k' = mapGet l k' := by
  have h0 : k ≠ k' := fun e => h e.symm
  simp only [mapGet, mapInsert]
  rw [List.find?_cons_of_neg _ (by simpa using h0), find?_filter_ne _ _ _ h]

theorem mapGet_mapRemove_self {κ ν : Type} [DecidableEq κ] (l : List (κ × ν))
    (k : κ) : mapGet (mapRemove l k) k = none := by
  have h : List.find? (fun e => decide (e.1 = k)) (mapRemove l k) = none := by
    apply List.find?_eq_none.mpr
    intro e he
    have h2 := (List.mem_filter.mp he).2
    simp only [decide_eq_true_eq] at h2 ⊢
    simpa using h2
  simp [mapGet, h]

theorem mapGet_mapRemove_ne {κ ν : Type} [DecidableEq κ] (l : List (κ × ν))
    (k k' : κ) (h : k' ≠ k) : mapGet (mapRemove l k) k' = mapGet l k' := by
  simp only [mapGet, mapRemove]
  rw [find?_filter_ne _ _ _ h]

theorem mapContains_of_mapGet_some {κ ν : Type} [DecidableEq κ]
    (l : List (κ × ν)) (k : κ) (v : ν) (h : mapGet l k = some v) :
    mapContains l k = true := by
  simp only [mapGet, Option.map_eq_some'] at h
  obtain ⟨e, he, _⟩ := h
  have hmem := List.mem_of_find?_eq_some he
  have hk := List.find?_some he
  simp only [decide_eq_true_eq] at hk
  rw [mapContains_iff]
  exact ⟨e.2, by rw [← hk]; exact hmem⟩

theorem mapGet_eq_none {κ ν : Type} [DecidableEq κ] (l : List (κ × ν)) (k : κ)
    (h : mapContains l k = false) : mapGet l k = none := by
  rw [mapGet, List.find?_eq_none.mpr]
  · rfl
  · intro e he hk
    have : mapContains l k = true := by
      rw [mapContains_iff]
      exact ⟨e.2, by have : e.1 = k := by simpa using hk
                     rw [← this]; exact he⟩
    rw [this] at h
    exact absurd h (by simp)

/-! ### Lemmas about the canonical encodings -/

theorem leBytes_length (w v : Nat) : (leBytes w v).length = w := by
  induction w generalizing v with
  | zero => rfl
  | succ w ih => simp [leBytes, ih]

theorem leVal_leBytes (w v : Nat) : leVal (leBytes w v) = v % 2 ^ (8 * w) := by
  induction w generalizing v with
  | zero => simp [leBytes, leVal]; omega
  | succ w ih =>
    have hpow : 2 ^ (8 * (w + 1)) = 256 * 2 ^ (8 * w) := by ring
    rw [leBytes]
    simp only [leVal, List.foldr_cons] at ih ⊢
    rw [ih, hpow]
    have h1 := Nat.mod_mul_right_div_self v 256 (2 ^ (8 * w))
    have h2 := Nat.mod_mod_of_dvd v (dvd_mul_right 256 (2 ^ (8 * w)))
    have h3 := Nat.div_add_mod (v % (256 * 2 ^ (8 * w))) 256
    omega

theorem u32BeBytes_length (n : Nat) : (u32BeBytes n).length = 4 := rfl

theorem beVal_u32BeBytes (n : Nat) : beVal (u32BeBytes n) = n % 2 ^ 32 := by
  simp only [u32BeBytes, beVal, List.foldl_cons, List.foldl_nil]
  omega

/-! ### Branch behaviour of the dispatchables -/

theorem verify_signature_ok_of (sender receiver : AccountId) (nonce : Nat)
    (amount : Balance) (signature : Bytes)
    (hlen : (encodeAccount sender).length = 33)
    (hpc : parseCompressedOk (encodeAccount sender) = true)
    (hps : parseSigOk signature = true)
    (hv : secpVerify (construct_byte_array_and_hash blake2_256 receiver nonce amount)
        signature (encodeAccount sender) = true) :
    verify_signature blake2_256 parseCompressedOk parseSigOk secpVerify
      sender receiver nonce amount signature = .ok := by
  simp [verify_signature, hlen, hpc, hps, hv]

theorem claim_payment_no_channel (s : State) (origin sender : AccountId)
    (nonce : Nat) (amount : Balance) (signature : Bytes)
    (h : mapContains s.channel (sender, origin) = false) :
    claim_payment blake2_256 parseCompressedOk parseSigOk secpVerify
      s origin sender nonce amount signature = .err .channelNotExists s := by
  simp [claim_payment, h]

theorem claim_payment_nonce_used (s : State) (origin sender : AccountId)
    (nonce : Nat) (amount : Balance) (signature : Bytes)
    (hch : mapContains s.channel (sender, origin) = true)
    (hn : mapContains s.nonce ((sender, origin), nonce) = true) :
    claim_payment blake2_256 parseCompressedOk parseSigOk secpVerify
      s origin sender nonce amount signature = .err .nonceAlreadyConsumed s := by
  simp [claim_payment, hch, hn]

theorem claim_payment_verify_err (s : State) (origin sender : AccountId)
    (nonce : Nat) (amount : Balance) (signature : Bytes) (e : DispatchError)
    (hch : mapContains s.channel (sender, origin) = true)
    (hn : mapContains s.nonce ((sender, origin), nonce) = false)
    (hv : verify_signature blake2_256 parseCompressedOk parseSigOk secpVerify
        sender origin nonce amount signature = .err e) :
    claim_payment blake2_256 parseCompressedOk parseSigOk secpVerify
      s origin sender nonce amount signature = .err e s := by
  simp [claim_payment, hch, hn, hv]

theorem claim_payment_verified (s : State) (origin sender : AccountId)
    (nonce : Nat) (amount : Balance) (signature : Bytes)
    (hch : mapContains s.channel (sender, origin) = true)
    (hn : mapContains s.nonce ((sender, origin), nonce) = false)
    (hv : verify_signature blake2_256 parseCompressedOk parseSigOk secpVerify
        sender origin nonce amount signature = .ok) :
    claim_payment blake2_256 parseCompressedOk parseSigOk secpVerify
      s origin sender nonce amount signature =
      match transfer s.balances sender origin amount with
      | none => .err .insufficientFunds s
      | some bal2 =>
        .ok { s with
          balances := bal2,
          nonce := mapInsert s.nonce ((sender, origin), nonce) true,
          events := s.events ++ [.ClaimPayment sender origin amount] } := by
  simp [claim_payment, hch, hn, hv]

theorem claim_payment_ok_exists (s : State) (origin sender : AccountId)
    (nonce : Nat) (amount : Balance) (signature : Bytes)
    (hch : mapContains s.channel (sender, origin) = true)
    (hn : mapContains s.nonce ((sender, origin), nonce) = false)
    (hver : verify_signature blake2_256 parseCompressedOk parseSigOk secpVerify
        sender origin nonce amount signature = .ok)
    (hbal : amount ≤ (mapGet s.balances sender).getD 0) :
    claim_payment blake2_256 parseCompressedOk parseSigOk secpVerify
        s origin sender nonce amount signature
      = .ok { s with
          balances := mapInsert
            (mapInsert s.balances sender ((mapGet s.balances sender).getD 0 - amount))
            origin
            ((mapGet (mapInsert s.balances sender
                ((mapGet s.balances sender).getD 0 - amount)) origin).getD 0
              + amount),
          nonce := mapInsert s.nonce ((sender, origin), nonce) true,
          events := s.events ++ [.ClaimPayment sender origin amount] } := by
  have hcv := claim_payment_verified _ _ _ _ s origin sender nonce amount
    signature hch hn hver
  have hcond : ¬ ((mapGet s.balances sender).getD 0 < amount) :=
    Nat.not_lt.mpr hbal
  have ht : transfer s.balances sender origin amount
      = some (mapInsert
          (mapInsert s.balances sender ((mapGet s.balances sender).getD 0 - amount))
          origin
          ((mapGet (mapInsert s.balances sender
              ((mapGet s.balances sender).getD 0 - amount)) origin).getD 0
            + amount)) := by
    simp only [transfer]
    rw [if_neg hcond]
  rw [hcv, ht]

theorem claim_payment_ok_inv (s s' : State) (origin sender : AccountId)
    (nonce : Nat) (amount : Balance) (signature : Bytes)
    (h : claim_payment blake2_256 parseCompressedOk parseSigOk secpVerify
        s origin sender nonce amount signature = .ok s') :
    mapContains s.channel (sender, origin) = true
    ∧ mapContains s.nonce ((sender, origin), nonce) = false
    ∧ s'.channel = s.channel
    ∧ mapContains s'.nonce ((sender, origin), nonce) = true := by
  cases h1 : mapContains s.channel (sender, origin) with
  | false =>
    rw [claim_payment_no_channel _ _ _ _ _ _ _ _ _ _ h1] at h
    simp at h
  | true =>
    cases h2 : mapContains s.nonce ((sender, origin), nonce) with
    | true =>
      rw [claim_payment_nonce_used _ _ _ _ _ _ _ _ _ _ h1 h2] at h
      simp at h
    | false =>
      cases h3 : verify_signature blake2_256 parseCompressedOk parseSigOk secpVerify
          sender origin nonce amount signature with
      | panic => simp [claim_payment, h1, h2, h3] at h
      | err e => simp [claim_payment, h1, h2, h3] at h
      | ok =>
        rw [claim_payment_verified _ _ _ _ _ _ _ _ _ _ h1 h2 h3] at h
        cases h4 : transfer s.balances sender origin amount with
        | none => rw [h4] at h; simp at h
        | some bal2 =>
          rw [h4] at h
          simp only [OpResult.ok.injEq] at h
          refine ⟨rfl, rfl, ?_, ?_⟩
          · rw [← h]
          · rw [← h]
            exact (mapContains_mapInsert _ _ _ _).mpr (Or.inl rfl)

theorem step_claim_channel (s : State) (origin sender : AccountId) (nonce : Nat)
    (amount : Balance) (signature : Bytes) :
    (step blake2_256 parseCompressedOk parseSigOk secpVerify s
      (.claim origin sender nonce amount signature)).channel = s.channel := by
  cases h1 : mapContains s.channel (sender, origin) with
  | false => simp [step, applyOp, claim_payment, h1]
  | true =>
    cases h2 : mapContains s.nonce ((sender, origin), nonce) with
    | true => simp [step, applyOp, claim_payment, h1, h2]
    | false =>
      cases h3 : verify_signature blake2_256 parseCompressedOk parseSigOk secpVerify
          sender origin nonce amount signature with
      | panic => simp [step, applyOp, claim_payment, h1, h2, h3]
      | err e => simp [step, applyOp, claim_payment, h1, h2, h3]
      | ok =>
        cases h4 : transfer s.balances sender origin amount with
        | none => simp [step, applyOp, claim_payment, h1, h2, h3, h4]
        | some bal2 => simp [step, applyOp, claim_payment, h1, h2, h3, h4]

theorem step_nonce_preserved (s : State) (op : Op)
    (pair : AccountId × AccountId) (n : Nat)
    (hn : mapContains s.nonce (pair, n) = true)
    (hch : mapContains
      (step blake2_256 parseCompressedOk parseSigOk secpVerify s op).channel pair
      = true) :
    mapContains
      (step blake2_256 parseCompressedOk parseSigOk secpVerify s op).nonce (pair, n)
      = true := by
  cases op with
  | openCh origin receiver time =>
    have hnn : (step blake2_256 parseCompressedOk parseSigOk secpVerify s
        (.openCh origin receiver time)).nonce = s.nonce := by
      cases h1 : mapContains s.channel (origin, receiver) with
      | true => simp [step, applyOp, open_channel, h1]
      | false =>
        by_cases h2 : origin = receiver
        · subst h2
          simp [step, applyOp, open_channel, h1]
        · simp [step, applyOp, open_channel, h1, h2]
    rw [hnn]
    exact hn
  | closeCh origin sender time =>
    cases h1 : mapContains s.channel (sender, origin) with
    | false =>
      have hnn : (step blake2_256 parseCompressedOk parseSigOk secpVerify s
          (.closeCh origin sender time)).nonce = s.nonce := by
        simp [step, applyOp, close_channel, h1]
      rw [hnn]
      exact hn
    | true =>
      simp [step, applyOp, close_channel, h1] at hch ⊢
      have hpair := ((mapContains_mapRemove _ _ _).mp hch).1
      exact (mapContains_removeChannelNonces _ _ _ _).mpr ⟨hpair, hn⟩
  | claim origin sender nonce' amount signature =>
    cases h1 : mapContains s.channel (sender, origin) with
    | false => simpa [step, applyOp, claim_payment, h1] using hn
    | true =>
      cases h2 : mapContains s.nonce ((sender, origin), nonce') with
      | true => simpa [step, applyOp, claim_payment, h1, h2] using hn
      | false =>
        cases h3 : verify_signature blake2_256 parseCompressedOk parseSigOk secpVerify
            sender origin nonce' amount signature with
        | panic => simpa [step, applyOp, claim_payment, h1, h2, h3] using hn
        | err e => simpa [step, applyOp, claim_payment, h1, h2, h3] using hn
        | ok =>
          cases h4 : transfer s.balances sender origin amount with
          | none => simpa [step, applyOp, claim_payment, h1, h2, h3, h4] using hn
          | some bal2 =>
            simp [step, applyOp, claim_payment, h1, h2, h3, h4]
            exact (mapContains_mapInsert _ _ _ _).mpr (Or.inr hn)

theorem run_cons (s : State) (op : Op) (ops : List Op) :
    run blake2_256 parseCompressedOk parseSigOk secpVerify s (op :: ops)
      = run blake2_256 parseCompressedOk parseSigOk secpVerify
          (step blake2_256 parseCompressedOk parseSigOk secpVerify s op) ops := rfl

theorem run_nonce_preserved (s : State) (ops : List Op)
    (pair : AccountId × AccountId) (n : Nat)
    (hn : mapContains s.nonce (pair, n) = true)
    (hco : channelStaysOpen blake2_256 parseCompressedOk parseSigOk secpVerify
      pair s ops = true) :
    mapContains
      (run blake2_256 parseCompressedOk parseSigOk secpVerify s ops).nonce (pair, n)
      = true := by
  induction ops generalizing s with
  | nil => exact hn
  | cons op ops ih =>
    rw [channelStaysOpen, Bool.and_eq_true] at hco
    obtain ⟨h1, h2⟩ := hco
    rw [run_cons]
    exact ih _ (step_nonce_preserved _ _ _ _ _ _ _ _ hn h1) h2

theorem run_channel_present (s : State) (ops : List Op)
    (pair : AccountId × AccountId)
    (h0 : mapContains s.channel pair = true)
    (hco : channelStaysOpen blake2_256 parseCompressedOk parseSigOk secpVerify
      pair s ops = true) :
    mapContains
      (run blake2_256 parseCompressedOk parseSigOk secpVerify s ops).channel pair
      = true := by
  induction ops generalizing s with
  | nil => exact h0
  | cons op ops ih =>
    rw [channelStaysOpen, Bool.and_eq_true] at hco
    obtain ⟨h1, h2⟩ := hco
    rw [run_cons]
    exact ih _ h1 h2

theorem step_channelKeyInv (s : State) (op : Op) (h : channelKeyInv s) :
    channelKeyInv (step blake2_256 parseCompressedOk parseSigOk secpVerify s op) := by
  cases op with
  | openCh origin receiver time =>
    cases h1 : mapContains s.channel (origin, receiver) with
    | true => simpa [step, applyOp, open_channel, h1] using h
    | false =>
      by_cases h2 : origin = receiver
      · subst h2
        simpa [step, applyOp, open_channel, h1] using h
      · intro pair chan hmem
        simp only [step, applyOp, open_channel, h1] at hmem
        simp [h2] at hmem
        rcases (mem_mapInsert _ _ _ _).mp hmem with he | ⟨hmem', _⟩
        · rw [Prod.ext_iff] at he
          obtain ⟨hp, hc⟩ := he
          subst hp
          subst hc
          exact ⟨rfl, rfl, h2⟩
        · exact h _ _ hmem'
  | closeCh origin sender time =>
    cases h1 : mapContains s.channel (sender, origin) with
    | false => simpa [step, applyOp, close_channel, h1] using h
    | true =>
      intro pair chan hmem
      simp only [step, applyOp, close_channel, h1] at hmem
      simp at hmem
      exact h _ _ (List.mem_of_mem_filter hmem)
  | claim origin sender nonce amount signature =>
    intro pair chan hmem
    rw [step_claim_channel] at hmem
    exact h _ _ hmem

theorem run_channelKeyInv (s : State) (ops : List Op) (h : channelKeyInv s) :
    channelKeyInv (run blake2_256 parseCompressedOk parseSigOk secpVerify s ops) := by
  induction ops generalizing s with
  | nil => exact h
  | cons op ops ih =>
    rw [run_cons]
    exact ih _ (step_channelKeyInv _ _ _ _ _ _ h)

theorem reachable_channelKeyInv (s : State)
    (h : Reachable blake2_256 parseCompressedOk parseSigOk secpVerify s) :
    channelKeyInv s := by
  obtain ⟨bal, ops, rfl⟩ := h
  apply run_channelKeyInv
  intro pair chan hmem
  simp [initState] at hmem

theorem open_channel_ok_inv (s : State) (origin receiver : AccountId)
    (time : Moment) (s' : State)
    (h : open_channel s origin receiver time = .ok s') :
    s' = { s with
      channel := mapInsert s.channel (origin, receiver)
        { sender := origin, receiver := receiver, expiration := time },
      events := s.events ++ [.ChannelOpened origin receiver time] } := by
  cases h1 : mapContains s.channel (origin, receiver) with
  | true => simp [open_channel, h1] at h
  | false =>
    by_cases h2 : origin = receiver
    · subst h2
      simp [open_channel, h1] at h
    · simp only [open_channel, h1] at h
      simp [h2] at h
      exact h.symm

theorem step_channel_point (s : State) (op : Op)
    (pair : AccountId × AccountId) (chan : Chan)
    (h : mapGet s.channel pair = some chan) :
    mapGet (step blake2_256 parseCompressedOk parseSigOk secpVerify s op).channel pair
        = some chan
    ∨ mapGet (step blake2_256 parseCompressedOk parseSigOk secpVerify s op).channel pair
        = none := by
  cases op with
  | openCh origin receiver time =>
    cases h1 : mapContains s.channel (origin, receiver) with
    | true =>
      left
      simpa [step, applyOp, open_channel, h1] using h
    | false =>
      by_cases h2 : origin = receiver
      · subst h2
        left
        simpa [step, applyOp, open_channel, h1] using h
      · by_cases hp : pair = (origin, receiver)
        · exfalso
          have hc := mapContains_of_mapGet_some _ _ _ h
          rw [hp, h1] at hc
          exact absurd hc (by simp)
        · left
          simp only [step, applyOp, open_channel, h1]
          simp [h2]
          rw [mapGet_mapInsert_ne _ _ _ _ hp]
          exact h
  | closeCh origin sender time =>
    cases h1 : mapContains s.channel (sender, origin) with
    | false =>
      left
      simpa [step, applyOp, close_channel, h1] using h
    | true =>
      by_cases hp : pair = (sender, origin)
      · right
        subst hp
        simp only [step, applyOp, close_channel, h1]
        simp
        exact mapGet_mapRemove_self _ _
      · left
        simp only [step, applyOp, close_channel, h1]
        simp
        rw [mapGet_mapRemove_ne _ _ _ hp]
        exact h
  | claim origin sender nonce amount signature =>
    left
    rw [step_claim_channel]
    exact h

/-! ### The claims -/

/-- C1: the claim states that for a payer account identifier whose
canonical byte encoding is not 33 bytes long, `claim_payment`'s
signature-verification path returns the recoverable error
`InvalidAccountKeyEncoding` ("Invalid Pubkey") instead of aborting the
process.  The code instead performs
`pk.copy_from_slice(&sender.encode())` into a fixed `[0u8; 33]` buffer,
which panics — an unrecoverable process abort — whenever the encoding's
length differs from 33.  Evaluated at a 32-byte account identifier (the
width of a standard `AccountId32`): both `verify_signature` and
`claim_payment` abort, and the promised recoverable error is not
produced. -/
theorem verify_signature_aborts_on_32_byte_key :
    verify_signature hashC parseOkC sigOkC verifyOkC acc32 accQ 1 50 [] = .panic
    ∧ claim_payment hashC parseOkC sigOkC verifyOkC stOpen32 accQ acc32 1 50 []
        = .panic
    ∧ verify_signature hashC parseOkC sigOkC verifyOkC acc32 accQ 1 50 []
        ≠ .err .invalidPubkey := by
  refine ⟨by decide, by decide, by decide⟩

/-- C2: `claim_payment` checks its preconditions in order — missing
channel `(sender, receiver)` gives "Channel not exists"
(`ChannelNotFound`); then a consumed nonce gives "Nonce already
consumed" (`NonceAlreadyConsumed`) regardless of the signature; then a
recoverable verifier failure propagates verbatim — and every such
failure leaves the observable state exactly the input state (no nonce
written, no channel change, no transfer, no event). -/
theorem claim_payment_precondition_order (s : State) (origin sender : AccountId)
    (nonce : Nat) (amount : Balance) (signature : Bytes) :
    (mapContains s.channel (sender, origin) = false →
      claim_payment blake2_256 parseCompressedOk parseSigOk secpVerify
        s origin sender nonce amount signature = .err .channelNotExists s)
    ∧ (mapContains s.channel (sender, origin) = true →
       mapContains s.nonce ((sender, origin), nonce) = true →
      claim_payment blake2_256 parseCompressedOk parseSigOk secpVerify
        s origin sender nonce amount signature = .err .nonceAlreadyConsumed s)
    ∧ (∀ e : DispatchError, mapContains s.channel (sender, origin) = true →
       mapContains s.nonce ((sender, origin), nonce) = false →
       verify_signature blake2_256 parseCompressedOk parseSigOk secpVerify
         sender origin nonce amount signature = .err e →
      claim_payment blake2_256 parseCompressedOk parseSigOk secpVerify
        s origin sender nonce amount signature = .err e s) :=
  ⟨fun h => claim_payment_no_channel _ _ _ _ _ _ _ _ _ _ h,
   fun h1 h2 => claim_payment_nonce_used _ _ _ _ _ _ _ _ _ _ h1 h2,
   fun e h1 h2 h3 => claim_payment_verify_err _ _ _ _ _ _ _ _ _ _ e h1 h2 h3⟩

/-- Witness for C2: each branch of the precondition order evaluated on
a concrete state — a claim against an absent channel, a claim replaying
the consumed nonce 1, and a claim whose public-key parse fails. -/
theorem claim_payment_precondition_order_witness :
    claim_payment hashC parseOkC sigOkC verifyOkC (initState []) accQ accP 1 50 []
      = .err .channelNotExists (initState [])
    ∧ claim_payment hashC parseOkC sigOkC verifyOkC stClaimed accQ accP 1 80 []
      = .err .nonceAlreadyConsumed stClaimed
    ∧ claim_payment hashC parseFailC sigOkC verifyOkC stOpen accQ accP 1 50 []
      = .err .invalidPubkey stOpen :=
  ⟨(claim_payment_precondition_order hashC parseOkC sigOkC verifyOkC
      (initState []) accQ accP 1 50 []).1 (by decide),
   (claim_payment_precondition_order hashC parseOkC sigOkC verifyOkC
      stClaimed accQ accP 1 80 []).2.1 (by decide) (by decide),
   (claim_payment_precondition_order hashC parseFailC sigOkC verifyOkC
      stOpen accQ accP 1 50 []).2.2 .invalidPubkey (by decide) (by decide) (by decide)⟩

/-- C5: the commitment digest signed for a claim is a pure function of
(payee identifier, sequence number, amount): the byte string built by
`construct_byte_array_and_hash` is exactly the payee identifier's
canonical encoding, then the sequence number as 4 big-endian bytes
(whose big-endian value is the sequence number reduced to 32 bits),
then the amount's canonical 16-byte SCALE encoding, reduced by the
fixed 256-bit hash (32-byte digest). -/
theorem commitment_digest_spec (address : AccountId) (nonce : Nat)
    (amount : Balance) :
    construct_byte_array_and_hash blake2_256 address nonce amount
      = blake2_256 (encodeAccount address ++ u32BeBytes nonce ++ encodeBalance amount)
    ∧ (u32BeBytes nonce).length = 4
    ∧ beVal (u32BeBytes nonce) = nonce % 2 ^ 32
    ∧ (encodeBalance amount).length = 16
    ∧ leVal (encodeBalance amount) = amount % 2 ^ 128
    ∧ ((construct_byte_array_and_hash blake2_256 address nonce amount).1).length = 32 := by
  refine ⟨?_, u32BeBytes_length nonce, beVal_u32BeBytes nonce,
    leBytes_length 16 amount, leVal_leBytes 16 amount, ?_⟩
  · simp [construct_byte_array_and_hash]
  · exact (construct_byte_array_and_hash blake2_256 address nonce amount).2

/-- C6: `open_channel` fails with "Channel already opened"
(`ChannelAlreadyOpen`) when the `(caller, payee)` channel exists, fails
with "Channel should connect two different accounts"
(`SelfChannelNotAllowed`) when caller equals payee, and otherwise
inserts the `Chan` record carrying the current timestamp under
`(caller, payee)` and deposits `ChannelOpened(caller, payee, time)`.
Failures leave the observable state exactly the input state. -/
theorem open_channel_spec (s : State) (origin receiver : AccountId)
    (time : Moment) :
    (mapContains s.channel (origin, receiver) = true →
      open_channel s origin receiver time = .err .channelAlreadyOpened s)
    ∧ (mapContains s.channel (origin, receiver) = false → origin = receiver →
      open_channel s origin receiver time = .err .selfChannel s)
    ∧ (mapContains s.channel (origin, receiver) = false → origin ≠ receiver →
      open_channel s origin receiver time = .ok { s with
        channel := mapInsert s.channel (origin, receiver)
          { sender := origin, receiver := receiver, expiration := time },
        events := s.events ++ [.ChannelOpened origin receiver time] }) := by
  refine ⟨fun h1 => ?_, fun h1 h2 => ?_, fun h1 h2 => ?_⟩
  · simp [open_channel, h1]
  · subst h2
    simp [open_channel, h1]
  · simp [open_channel, h1, h2]

/-- Witness for C6: the three branches evaluated concretely — reopening
the already-open `(accP, accQ)`, opening a self-channel, and a fresh
successful open. -/
theorem open_channel_spec_witness :
    open_channel stOpen accP accQ 9 = .err .channelAlreadyOpened stOpen
    ∧ open_channel (initState []) accP accP 9 = .err .selfChannel (initState [])
    ∧ open_channel (initState []) accP accQ 5 = .ok { initState [] with
        channel := mapInsert (initState []).channel (accP, accQ)
          { sender := accP, receiver := accQ, expiration := 5 },
        events := (initState []).events ++ [.ChannelOpened accP accQ 5] } :=
  ⟨(open_channel_spec stOpen accP accQ 9).1 (by decide),
   (open_channel_spec (initState []) accP accP 9).2.1 (by decide) rfl,
   (open_channel_spec (initState []) accP accQ 5).2.2 (by decide) (by decide)⟩

/-- C10: in every reachable state no channel is keyed by a pair whose
payer equals its payee, and therefore `close_channel` and
`claim_payment` invoked by a caller naming themself as the counterparty
fail with "Channel not exists" (`ChannelNotFound`), leaving the
observable state exactly the input state. -/
theorem no_self_channel (s : State)
    (hr : Reachable blake2_256 parseCompressedOk parseSigOk secpVerify s)
    (a : AccountId) (t : Moment) (n : Nat) (amount : Balance)
    (signature : Bytes) :
    mapContains s.channel (a, a) = false
    ∧ close_channel s a a t = .err .channelNotExists s
    ∧ claim_payment blake2_256 parseCompressedOk parseSigOk secpVerify
        s a a n amount signature = .err .channelNotExists s := by
  have hinv := reachable_channelKeyInv _ _ _ _ s hr
  have hfalse : mapContains s.channel (a, a) = false := by
    cases hc : mapContains s.channel (a, a) with
    | false => rfl
    | true =>
      obtain ⟨chan, hmem⟩ := (mapContains_iff _ _).mp hc
      exact absurd rfl (hinv _ _ hmem).2.2
  refine ⟨hfalse, ?_, ?_⟩
  · simp [close_channel, hfalse]
  · exact claim_payment_no_channel _ _ _ _ _ _ _ _ _ _ hfalse

/-- Witness for C10: evaluated at the reachable state produced by
opening `(accP, accQ)` from genesis, with the caller naming themself. -/
theorem no_self_channel_witness :
    mapContains (run hashC parseOkC sigOkC verifyOkC
        (initState [(accP, 100)]) [.openCh accP accQ 5]).channel (accP, accP) = false
    ∧ close_channel (run hashC parseOkC sigOkC verifyOkC
        (initState [(accP, 100)]) [.openCh accP accQ 5]) accP accP 7
      = .err .channelNotExists (run hashC parseOkC sigOkC verifyOkC
        (initState [(accP, 100)]) [.openCh accP accQ 5])
    ∧ claim_payment hashC parseOkC sigOkC verifyOkC
        (run hashC parseOkC sigOkC verifyOkC
          (initState [(accP, 100)]) [.openCh accP accQ 5]) accP accP 1 50 []
      = .err .channelNotExists (run hashC parseOkC sigOkC verifyOkC
        (initState [(accP, 100)]) [.openCh accP accQ 5]) :=
  no_self_channel hashC parseOkC sigOkC verifyOkC
    (run hashC parseOkC sigOkC verifyOkC (initState [(accP, 100)]) [.openCh accP accQ 5])
    ⟨[(accP, 100)], [.openCh accP accQ 5], rfl⟩ accP 7 1 50 []

/-- C3: once the local checks of `claim_payment` (channel, nonce,
signature) have passed, the external transfer decides the outcome: when
the payer's balance is short the call aborts with the transfer's error
and the observable state — in particular the nonce set — is exactly the
input state; when the balance suffices the external transfer is applied
exactly once to the pre-state balances and only then is the nonce
marked consumed; a full drain of the payer's account (balance exactly
`amount`, leaving zero) is permitted. -/
theorem claim_payment_transfer_order (s : State) (origin sender : AccountId)
    (nonce : Nat) (amount : Balance) (signature : Bytes)
    (hch : mapContains s.channel (sender, origin) = true)
    (hn : mapContains s.nonce ((sender, origin), nonce) = false)
    (hv : verify_signature blake2_256 parseCompressedOk parseSigOk secpVerify
        sender origin nonce amount signature = .ok) :
    ((mapGet s.balances sender).getD 0 < amount →
      claim_payment blake2_256 parseCompressedOk parseSigOk secpVerify
        s origin sender nonce amount signature = .err .insufficientFunds s)
    ∧ (amount ≤ (mapGet s.balances sender).getD 0 →
      ∃ bal2, transfer s.balances sender origin amount = some bal2
        ∧ claim_payment blake2_256 parseCompressedOk parseSigOk secpVerify
            s origin sender nonce amount signature = .ok { s with
              balances := bal2,
              nonce := mapInsert s.nonce ((sender, origin), nonce) true,
              events := s.events ++ [.ClaimPayment sender origin amount] })
    ∧ ((mapGet s.balances sender).getD 0 = amount → sender ≠ origin →
      ∃ bal2, transfer s.balances sender origin amount = some bal2
        ∧ (mapGet bal2 sender).getD 0 = 0
        ∧ claim_payment blake2_256 parseCompressedOk parseSigOk secpVerify
            s origin sender nonce amount signature = .ok { s with
              balances := bal2,
              nonce := mapInsert s.nonce ((sender, origin), nonce) true,
              events := s.events ++ [.ClaimPayment sender origin amount] }) := by
  have hcv := claim_payment_verified _ _ _ _ s origin sender nonce amount
    signature hch hn hv
  refine ⟨fun hlt => ?_, fun hle => ?_, fun heq hne => ?_⟩
  · have ht : transfer s.balances sender origin amount = none := by
      simp only [transfer]
      rw [if_pos hlt]
    rw [hcv, ht]
  · have ht : transfer s.balances sender origin amount
        = some (mapInsert
            (mapInsert s.balances sender ((mapGet s.balances sender).getD 0 - amount))
            origin
            ((mapGet (mapInsert s.balances sender
                ((mapGet s.balances sender).getD 0 - amount)) origin).getD 0
              + amount)) := by
      have hcond : ¬ ((mapGet s.balances sender).getD 0 < amount) :=
        Nat.not_lt.mpr hle
      simp only [transfer]
      rw [if_neg hcond]
    exact ⟨_, ht, by rw [hcv, ht]⟩
  · have ht : transfer s.balances sender origin amount
        = some (mapInsert
            (mapInsert s.balances sender ((mapGet s.balances sender).getD 0 - amount))
            origin
            ((mapGet (mapInsert s.balances sender
                ((mapGet s.balances sender).getD 0 - amount)) origin).getD 0
              + amount)) := by
      have hcond : ¬ ((mapGet s.balances sender).getD 0 < amount) :=
        Nat.not_lt.mpr (le_of_eq heq.symm)
      simp only [transfer]
      rw [if_neg hcond]
    refine ⟨_, ht, ?_, by rw [hcv, ht]⟩
    rw [mapGet_mapInsert_ne _ _ _ _ hne, mapGet_mapInsert_self]
    simp [heq]

/-- Witness for C3: on `stOpen` (payer funded with 100), a claim of 200
aborts with the transfer error and state unchanged; a claim of 50
settles; a claim of the full 100 drains the payer to zero. -/
theorem claim_payment_transfer_order_witness :
    claim_payment hashC parseOkC sigOkC verifyOkC stOpen accQ accP 1 200 []
      = .err .insufficientFunds stOpen
    ∧ (∃ bal2, transfer stOpen.balances accP accQ 100 = some bal2
        ∧ (mapGet bal2 accP).getD 0 = 0
        ∧ claim_payment hashC parseOkC sigOkC verifyOkC stOpen accQ accP 1 100 []
            = .ok { stOpen with
                balances := bal2,
                nonce := mapInsert stOpen.nonce ((accP, accQ), 1) true,
                events := stOpen.events ++ [.ClaimPayment accP accQ 100] }) :=
  ⟨(claim_payment_transfer_order hashC parseOkC sigOkC verifyOkC
      stOpen accQ accP 1 200 [] (by decide) (by decide) (by decide)).1 (by decide),
   (claim_payment_transfer_order hashC parseOkC sigOkC verifyOkC
      stOpen accQ accP 1 100 [] (by decide) (by decide) (by decide)).2.2
      (by decide) (by decide)⟩

/-- C4: once a `claim_payment` for `(sender, receiver, nonce)` has
succeeded, every later `claim_payment` for the same triple fails with
"Nonce already consumed" (`NonceAlreadyConsumed`) — for any submitted
amount and signature — after any sequence of calls throughout which the
channel stays open. -/
theorem nonce_replay_rejected (s₀ s₁ : State) (origin sender : AccountId)
    (nonce : Nat) (amount : Balance) (signature : Bytes)
    (hclaim : claim_payment blake2_256 parseCompressedOk parseSigOk secpVerify
        s₀ origin sender nonce amount signature = .ok s₁)
    (ops : List Op)
    (hco : channelStaysOpen blake2_256 parseCompressedOk parseSigOk secpVerify
        (sender, origin) s₁ ops = true)
    (amount' : Balance) (signature' : Bytes) :
    claim_payment blake2_256 parseCompressedOk parseSigOk secpVerify
        (run blake2_256 parseCompressedOk parseSigOk secpVerify s₁ ops)
        origin sender nonce amount' signature'
      = .err .nonceAlreadyConsumed
          (run blake2_256 parseCompressedOk parseSigOk secpVerify s₁ ops) := by
  obtain ⟨hch0, _, hcheq, hn1⟩ :=
    claim_payment_ok_inv _ _ _ _ _ _ _ _ _ _ _ hclaim
  have hch1 : mapContains s₁.channel (sender, origin) = true := by
    rw [hcheq]
    exact hch0
  have hch := run_channel_present _ _ _ _ _ _ _ hch1 hco
  have hn := run_nonce_preserved _ _ _ _ _ _ _ _ hn1 hco
  exact claim_payment_nonce_used _ _ _ _ _ _ _ _ _ _ hch hn

/-- Witness for C4: the claim `(nonce 1, amount 50)` settles on
`stOpen`; after a further call opening the reverse channel, replaying
nonce 1 with a different amount and signature is rejected. -/
theorem nonce_replay_rejected_witness :
    claim_payment hashC parseOkC sigOkC verifyOkC stOpen accQ accP 1 50 []
      = .ok stClaimed
    ∧ claim_payment hashC parseOkC sigOkC verifyOkC
        (run hashC parseOkC sigOkC verifyOkC stClaimed [.openCh accQ accP 7])
        accQ accP 1 80 [3]
      = .err .nonceAlreadyConsumed
          (run hashC parseOkC sigOkC verifyOkC stClaimed [.openCh accQ accP 7]) :=
  ⟨by decide,
   nonce_replay_rejected hashC parseOkC sigOkC verifyOkC stOpen stClaimed
     accQ accP 1 50 [] (by decide) [.openCh accQ accP 7] (by decide) 80 [3]⟩

/-- C7: `close_channel` on an existing channel removes every nonce
record of the pair together with the `Chan` record in the same
successful call and deposits `ChannelClosed`; consequently reopening
the same pair succeeds, and a `claim_payment` reusing a sequence number
consumed in the prior incarnation (here recorded by `hn0`) succeeds in
the reopened channel. -/
theorem close_channel_wipes_nonces (s : State) (origin sender : AccountId)
    (t t2 : Moment) (n : Nat) (amount : Balance) (signature : Bytes)
    (hch : mapContains s.channel (sender, origin) = true)
    (hne : sender ≠ origin)
    (_hn0 : mapContains s.nonce ((sender, origin), n) = true)
    (hlen : (encodeAccount sender).length = 33)
    (hpc : parseCompressedOk (encodeAccount sender) = true)
    (hps : parseSigOk signature = true)
    (hv : secpVerify (construct_byte_array_and_hash blake2_256 origin n amount)
        signature (encodeAccount sender) = true)
    (hbal : amount ≤ (mapGet s.balances sender).getD 0) :
    close_channel s origin sender t = .ok { s with
        nonce := removeChannelNonces s.nonce (sender, origin),
        channel := mapRemove s.channel (sender, origin),
        events := s.events ++ [.ChannelClosed sender origin t] }
    ∧ open_channel { s with
          nonce := removeChannelNonces s.nonce (sender, origin),
          channel := mapRemove s.channel (sender, origin),
          events := s.events ++ [.ChannelClosed sender origin t] }
        sender origin t2
      = .ok { s with
          nonce := removeChannelNonces s.nonce (sender, origin),
          channel := mapInsert (mapRemove s.channel (sender, origin)) (sender, origin)
            { sender := sender, receiver := origin, expiration := t2 },
          events := (s.events ++ [.ChannelClosed sender origin t])
            ++ [.ChannelOpened sender origin t2] }
    ∧ ∃ s4, claim_payment blake2_256 parseCompressedOk parseSigOk secpVerify
        { s with
          nonce := removeChannelNonces s.nonce (sender, origin),
          channel := mapInsert (mapRemove s.channel (sender, origin)) (sender, origin)
            { sender := sender, receiver := origin, expiration := t2 },
          events := (s.events ++ [.ChannelClosed sender origin t])
            ++ [.ChannelOpened sender origin t2] }
        origin sender n amount signature = .ok s4 := by
  have hfree : mapContains (mapRemove s.channel (sender, origin)) (sender, origin)
      = false := by
    cases hcc : mapContains (mapRemove s.channel (sender, origin)) (sender, origin) with
    | false => rfl
    | true => exact absurd rfl ((mapContains_mapRemove _ _ _).mp hcc).1
  have hn2 : mapContains (removeChannelNonces s.nonce (sender, origin))
      ((sender, origin), n) = false := by
    cases hcc : mapContains (removeChannelNonces s.nonce (sender, origin))
        ((sender, origin), n) with
    | false => rfl
    | true => exact absurd rfl ((mapContains_removeChannelNonces _ _ _ _).mp hcc).1
  have hver := verify_signature_ok_of _ _ _ _ sender origin n amount signature
    hlen hpc hps hv
  refine ⟨?_, ?_, ?_⟩
  · simp [close_channel, hch]
  · simp [open_channel, hfree, hne]
  · have hch2 : mapContains
        (mapInsert (mapRemove s.channel (sender, origin)) (sender, origin)
          { sender := sender, receiver := origin, expiration := t2 })
        (sender, origin) = true :=
      (mapContains_mapInsert _ _ _ _).mpr (Or.inl rfl)
    exact ⟨_, claim_payment_ok_exists _ _ _ _
      { s with
        nonce := removeChannelNonces s.nonce (sender, origin),
        channel := mapInsert (mapRemove s.channel (sender, origin)) (sender, origin)
          { sender := sender, receiver := origin, expiration := t2 },
        events := (s.events ++ [.ChannelClosed sender origin t])
          ++ [.ChannelOpened sender origin t2] }
      origin sender n amount signature hch2 hn2 hver hbal⟩

/-- Witness for C7: `stClaimed` (channel `(accP, accQ)` with nonce 1
consumed) is closed by `accQ`, reopened by `accP`, and nonce 1 is
claimed again successfully. -/
theorem close_channel_wipes_nonces_witness :
    close_channel stClaimed accQ accP 8 = .ok { stClaimed with
        nonce := removeChannelNonces stClaimed.nonce (accP, accQ),
        channel := mapRemove stClaimed.channel (accP, accQ),
        events := stClaimed.events ++ [.ChannelClosed accP accQ 8] }
    ∧ (∃ s4, claim_payment hashC parseOkC sigOkC verifyOkC
        { stClaimed with
          nonce := removeChannelNonces stClaimed.nonce (accP, accQ),
          channel := mapInsert (mapRemove stClaimed.channel (accP, accQ)) (accP, accQ)
            { sender := accP, receiver := accQ, expiration := 9 },
          events := (stClaimed.events ++ [.ChannelClosed accP accQ 8])
            ++ [.ChannelOpened accP accQ 9] }
        accQ accP 1 25 [] = .ok s4) :=
  ⟨(close_channel_wipes_nonces hashC parseOkC sigOkC verifyOkC stClaimed accQ accP
      8 9 1 25 [] (by decide) (by decide) (by decide) (by decide) (by decide)
      (by decide) (by decide) (by decide)).1,
   (close_channel_wipes_nonces hashC parseOkC sigOkC verifyOkC stClaimed accQ accP
      8 9 1 25 [] (by decide) (by decide) (by decide) (by decide) (by decide)
      (by decide) (by decide) (by decide)).2.2⟩

/-- C8: on an open channel with a fresh sequence number, a verifying
signature and sufficient funds, `claim_payment` succeeds: the payer's
balance decreases by `amount`, the payee's increases by `amount`, the
nonce becomes consumed, `ClaimPayment(sender, receiver, amount)` is the
one new event, and the `Channel` storage is untouched (the operation is
a self-loop on the open state). -/
theorem claim_payment_success_effects (s : State) (origin sender : AccountId)
    (nonce : Nat) (amount : Balance) (signature : Bytes)
    (hne : sender ≠ origin)
    (hch : mapContains s.channel (sender, origin) = true)
    (hn : mapContains s.nonce ((sender, origin), nonce) = false)
    (hlen : (encodeAccount sender).length = 33)
    (hpc : parseCompressedOk (encodeAccount sender) = true)
    (hps : parseSigOk signature = true)
    (hv : secpVerify (construct_byte_array_and_hash blake2_256 origin nonce amount)
        signature (encodeAccount sender) = true)
    (hbal : amount ≤ (mapGet s.balances sender).getD 0) :
    ∃ s', claim_payment blake2_256 parseCompressedOk parseSigOk secpVerify
        s origin sender nonce amount signature = .ok s'
      ∧ (mapGet s'.balances sender).getD 0
          = (mapGet s.balances sender).getD 0 - amount
      ∧ (mapGet s'.balances origin).getD 0
          = (mapGet s.balances origin).getD 0 + amount
      ∧ mapContains s'.nonce ((sender, origin), nonce) = true
      ∧ s'.events = s.events ++ [.ClaimPayment sender origin amount]
      ∧ s'.channel = s.channel := by
  have hver := verify_signature_ok_of _ _ _ _ sender origin nonce amount signature
    hlen hpc hps hv
  have hcv := claim_payment_verified _ _ _ _ s origin sender nonce amount
    signature hch hn hver
  have ht : transfer s.balances sender origin amount
      = some (mapInsert
          (mapInsert s.balances sender ((mapGet s.balances sender).getD 0 - amount))
          origin
          ((mapGet (mapInsert s.balances sender
              ((mapGet s.balances sender).getD 0 - amount)) origin).getD 0
            + amount)) := by
    have hcond : ¬ ((mapGet s.balances sender).getD 0 < amount) :=
      Nat.not_lt.mpr hbal
    simp only [transfer]
    rw [if_neg hcond]
  refine ⟨{ s with
      balances := mapInsert
        (mapInsert s.balances sender ((mapGet s.balances sender).getD 0 - amount))
        origin
        ((mapGet (mapInsert s.balances sender
            ((mapGet s.balances sender).getD 0 - amount)) origin).getD 0 + amount),
      nonce := mapInsert s.nonce ((sender, origin), nonce) true,
      events := s.events ++ [.ClaimPayment sender origin amount] },
    by rw [hcv, ht], ?_, ?_, ?_, rfl, rfl⟩
  · simp only [mapGet_mapInsert_ne _ _ _ _ hne, mapGet_mapInsert_self,
      Option.getD_some]
  · have hne' : origin ≠ sender := fun e => hne e.symm
    simp only [mapGet_mapInsert_self, Option.getD_some,
      mapGet_mapInsert_ne _ _ _ _ hne']
  · exact (mapContains_mapInsert _ _ _ _).mpr (Or.inl rfl)

/-- Witness for C8: the end-to-end scenario — on `stOpen` the payee
`accQ` claims 50 from `accP`; the payer ends at 50, the payee at 50,
nonce 1 is consumed, and the `ClaimPayment` event fires. -/
theorem claim_payment_success_effects_witness :
    ∃ s', claim_payment hashC parseOkC sigOkC verifyOkC stOpen accQ accP 1 50 []
        = .ok s'
      ∧ (mapGet s'.balances accP).getD 0 = (mapGet stOpen.balances accP).getD 0 - 50
      ∧ (mapGet s'.balances accQ).getD 0 = (mapGet stOpen.balances accQ).getD 0 + 50
      ∧ mapContains s'.nonce ((accP, accQ), 1) = true
      ∧ s'.events = stOpen.events ++ [.ClaimPayment accP accQ 50]
      ∧ s'.channel = stOpen.channel :=
  claim_payment_success_effects hashC parseOkC sigOkC verifyOkC stOpen accQ accP
    1 50 [] (by decide) (by decide) (by decide) (by decide) (by decide)
    (by decide) (by decide) (by decide)

/-- C9: in every reachable state each stored `Chan` record agrees with
its storage key (`sender` = key's payer, `receiver` = key's payee);
a successful `open_channel` stores under `(caller, payee)` exactly the
record carrying the timestamp of that call; and no call mutates a
stored `Chan` record in place — after any step the record under a key
is either unchanged or gone. -/
theorem channel_record_integrity :
    (∀ s, Reachable blake2_256 parseCompressedOk parseSigOk secpVerify s →
      ∀ pair chan, (pair, chan) ∈ s.channel →
        chan.sender = pair.1 ∧ chan.receiver = pair.2)
    ∧ (∀ s origin receiver time s',
        open_channel s origin receiver time = .ok s' →
        mapGet s'.channel (origin, receiver)
          = some { sender := origin, receiver := receiver, expiration := time })
    ∧ (∀ s op pair chan, mapGet s.channel pair = some chan →
        mapGet (step blake2_256 parseCompressedOk parseSigOk secpVerify s op).channel
            pair = some chan
        ∨ mapGet (step blake2_256 parseCompressedOk parseSigOk secpVerify s op).channel
            pair = none)
    ∧ (∀ s origin sender time pair, mapGet s.channel pair = none →
        mapGet (step blake2_256 parseCompressedOk parseSigOk secpVerify s
          (.closeCh origin sender time)).channel pair = none)
    ∧ (∀ s origin sender nonce amount signature pair,
        mapGet s.channel pair = none →
        mapGet (step blake2_256 parseCompressedOk parseSigOk secpVerify s
          (.claim origin sender nonce amount signature)).channel pair = none) := by
  refine ⟨?_, ?_, ?_, ?_, ?_⟩
  · intro s hr pair chan hmem
    have h := reachable_channelKeyInv _ _ _ _ s hr pair chan hmem
    exact ⟨h.1, h.2.1⟩
  · intro s origin receiver time s' h
    rw [open_channel_ok_inv _ _ _ _ _ h]
    exact mapGet_mapInsert_self _ _ _
  · intro s op pair chan h
    exact step_channel_point _ _ _ _ _ _ _ _ h
  · intro s origin sender time pair h
    cases h1 : mapContains s.channel (sender, origin) with
    | false => simpa [step, applyOp, close_channel, h1] using h
    | true =>
      simp only [step, applyOp, close_channel, h1]
      simp
      by_cases hp : pair = (sender, origin)
      · subst hp
        exact mapGet_mapRemove_self _ _
      · rw [mapGet_mapRemove_ne _ _ _ hp]
        exact h
  · intro s origin sender nonce amount signature pair h
    rw [step_claim_channel]
    exact h

/-- Witness for C9: the three parts evaluated concretely — the record
stored after opening `(accP, accQ)` from genesis agrees with its key;
the fresh open stores the timestamp-5 record; a close step leaves the
record under the key either unchanged or removed. -/
theorem channel_record_integrity_witness :
    (({ sender := accP, receiver := accQ, expiration := 5 } : Chan).sender
        = ((accP, accQ) : AccountId × AccountId).1
      ∧ ({ sender := accP, receiver := accQ, expiration := 5 } : Chan).receiver
        = ((accP, accQ) : AccountId × AccountId).2)
    ∧ mapGet stFresh.channel (accP, accQ)
        = some { sender := accP, receiver := accQ, expiration := 5 }
    ∧ (mapGet (step hashC parseOkC sigOkC verifyOkC stFresh
          (.closeCh accQ accP 6)).channel (accP, accQ)
        = some { sender := accP, receiver := accQ, expiration := 5 }
      ∨ mapGet (step hashC parseOkC sigOkC verifyOkC stFresh
          (.closeCh accQ accP 6)).channel (accP, accQ) = none)
    ∧ mapGet (step hashC parseOkC sigOkC verifyOkC stFresh
        (.closeCh accQ accP 6)).channel (accQ, accP) = none
    ∧ mapGet (step hashC parseOkC sigOkC verifyOkC stFresh
        (.claim accQ accP 1 50 [])).channel (accQ, accP) = none :=
  ⟨(channel_record_integrity hashC parseOkC sigOkC verifyOkC).1
      (run hashC parseOkC sigOkC verifyOkC (initState []) [.openCh accP accQ 5])
      ⟨[], [.openCh accP accQ 5], rfl⟩
      (accP, accQ) { sender := accP, receiver := accQ, expiration := 5 } (by decide),
   (channel_record_integrity hashC parseOkC sigOkC verifyOkC).2.1
      (initState []) accP accQ 5 stFresh (by decide),
   (channel_record_integrity hashC parseOkC sigOkC verifyOkC).2.2.1
      stFresh (.closeCh accQ accP 6) (accP, accQ)
      { sender := accP, receiver := accQ, expiration := 5 } (by decide),
   (channel_record_integrity hashC parseOkC sigOkC verifyOkC).2.2.2.1
      stFresh accQ accP 6 (accQ, accP) (by decide),
   (channel_record_integrity hashC parseOkC sigOkC verifyOkC).2.2.2.2
      stFresh accQ accP 1 50 [] (accQ, accP) (by decide)⟩

end Micropay
